import Mathlib

/-!
Shallow embedding of the Task Graph Reconciliation Engine of the
agent-task-master repository, together with proofs settling the frozen
claims about it.

Conventions used throughout the embedding:
* Task and subtask ids are JSON integers; they are modelled as `Int`.
  JavaScript stringification `String(id)` is injective on integers, so a
  JS `Map` keyed by `String(task.id)` is modelled as an association list
  keyed by the integer id, and the sort comparator
  `parseFloat(String(a.id)) - parseFloat(String(b.id))` is modelled as
  integer comparison of ids.
* A JS object field that may be `undefined` is modelled as an `Option`.
* The on-disk tasks.json document is threaded explicitly: each direct
  function takes the stored document (`Option Doc`, `none` = missing or
  invalid file) and returns the stored document after the call.
* External collaborators (the sampling LLM, the response parser) are
  modelled as inputs: `none` models a failed/empty/unparseable
  completion, `some xs` a successfully parsed result.
-/

namespace TaskMaster

/-- A subtask record (data model of spec §3; fields used by the engine). -/
structure Subtask where
  id : Int
  title : String
  description : String
  details : String
  status : String
deriving Repr, DecidableEq

/-- A task record (data model of spec §3; fields used by the engine). -/
structure Task where
  id : Int
  title : String
  description : String
  details : String
  testStrategy : String
  status : String
  priority : String
  dependencies : List Int
  subtasks : List Subtask
deriving Repr, DecidableEq

/-- The persisted document: `{ tasks: [...] }`.  The free-form `metadata`
field is not load-bearing (spec §3) and is omitted. -/
structure Doc where
  tasks : List Task
deriving Repr, DecidableEq

/-- `[k, k+1, ..., k+n-1]` as integers; used to state the contiguous
subtask-id invariant. -/
def rangeInts (k : Int) : Nat → List Int
  | 0 => []
  | n + 1 => k :: rangeInts (k + 1) n

/-- The contiguity invariant of spec §3: the subtask ids of a task are
exactly `1..N` in order, where `N` is the number of subtasks. -/
def contiguousIds (t : Task) : Bool :=
  t.subtasks.map (·.id) == rangeInts 1 t.subtasks.length

/-! ## Reconciliation merge
Embedding of `saveUpdatedTasksDirect`
(mcp-server/src/core/direct-functions/save-updated-tasks.js).
The update map is a JS `Map`: insertion order preserved, `set` on an
existing key overwrites the value in place, `delete` removes the entry. -/

/-- JS `Map.prototype.set`: overwrite in place if the key is present,
otherwise append the new entry. -/
def mapSet (m : List (Int × Task)) (k : Int) (v : Task) : List (Int × Task) :=
  if m.any (fun p => p.1 == k) then
    m.map (fun p => if p.1 == k then (k, v) else p)
  else m ++ [(k, v)]

/-- JS `Map.prototype.get` (as an `Option`). -/
def mapGet (m : List (Int × Task)) (k : Int) : Option Task :=
  (m.find? (fun p => p.1 == k)).map (·.2)

/-- JS `Map.prototype.delete`. -/
def mapDelete (m : List (Int × Task)) (k : Int) : List (Int × Task) :=
  m.filter (fun p => p.1 != k)

/-- save-updated-tasks.js lines 395-399: index the update batch by task
id (`updatedTasksMap`), later entries overwriting earlier ones. -/
def buildUpdateMap (updates : List Task) : List (Int × Task) :=
  updates.foldl (fun m u => mapSet m u.id u) []

/-- save-updated-tasks.js lines 402-414: walk the existing tasks in
order; substitute the updated object wholesale when the id is in the
map, deleting the consumed entry; otherwise keep the existing task.
Returns the merged prefix together with the leftover (unconsumed) map. -/
def mergePass (m : List (Int × Task)) : List Task → List Task × List (Int × Task)
  | [] => ([], m)
  | t :: ts =>
    match mapGet m t.id with
    | some u =>
      let r := mergePass (mapDelete m t.id) ts
      (u :: r.1, r.2)
    | none =>
      let r := mergePass m ts
      (t :: r.1, r.2)

/-- Stable insertion of a task into a list sorted by ascending id: the
new element goes after every element whose id is ≤ its own, so elements
comparing equal keep their relative order. -/
def insertByIdStable (t : Task) : List Task → List Task
  | [] => [t]
  | u :: us => if u.id ≤ t.id then u :: insertByIdStable t us else t :: u :: us

/-- JS `Array.prototype.sort` with the comparator
`(a, b) => parseFloat(String(a.id)) - parseFloat(String(b.id))`
(save-updated-tasks.js line 422): a stable sort by ascending numeric id.
All stable sorts with respect to the same total preorder produce the
same list, so the embedding uses stable insertion sort, which computes
by structural recursion. -/
def sortByNumericId (l : List Task) : List Task :=
  l.foldl (fun acc t => insertByIdStable t acc) []

/-- save-updated-tasks.js lines 402-423: the full merge.  Unconsumed
updates are appended at the end and the whole list is then sorted by
numeric id. -/
def mergeTasks (existing updates : List Task) : List Task :=
  let p := mergePass (buildUpdateMap updates) existing
  if p.2.isEmpty then p.1
  else sortByNumericId (p.1 ++ p.2.map (·.2))

/-- The `updatedTasks` argument of `saveUpdatedTasksDirect`:
`notArray` models any non-array JS value. -/
inductive UpdatesArg where
  | notArray
  | arr (updates : List Task)

/-- Result of a save-style direct function: the returned envelope
(`success`, optional error code) together with the document on disk
after the call. -/
structure SaveOutcome where
  success : Bool
  errorCode : Option String
  stored : Option Doc
deriving Repr, DecidableEq

/-- Embedding of `saveUpdatedTasksDirect` (save-updated-tasks.js lines
376-453).  `pathOk`/`rootOk` model truthiness of `tasksJsonPath` and
`projectRoot`; `stored` is the document on disk (`none` = `readJSON`
yields no valid `{ tasks: [...] }`, which throws and is caught as
`SAVE_ERROR`).  The best-effort artifact regeneration step never changes
the outcome and is omitted. -/
def saveUpdatedTasksDirect (pathOk rootOk : Bool) (updatedTasks : UpdatesArg)
    (stored : Option Doc) : SaveOutcome :=
  match updatedTasks with
  | .notArray => ⟨false, some "MISSING_ARGS", stored⟩
  | .arr ups =>
    if ¬pathOk ∨ ¬rootOk then ⟨false, some "MISSING_ARGS", stored⟩
    else
      match stored with
      | none => ⟨false, some "SAVE_ERROR", none⟩
      | some doc => ⟨true, none, some ⟨mergeTasks doc.tasks ups⟩⟩

/-! ## Multi-task subtask save
Embedding of `saveMultipleTaskSubtasksDirect`
(mcp-server/src/core/direct-functions/save-multiple-task-subtasks.js). -/

/-- One entry of the `subtaskUpdates` argument: `{ taskId, subtasks }`. -/
structure SubtaskUpdate where
  taskId : Int
  subtasks : List Subtask
deriving Repr, DecidableEq

/-- save-multiple-task-subtasks.js lines 310-313:
`subtasks.map((sub, index) => ({ ...sub, id: index + 1 }))`, written as a
recursion carrying the next id. -/
def renumberFrom (k : Int) : List Subtask → List Subtask
  | [] => []
  | s :: rest => { s with id := k } :: renumberFrom (k + 1) rest

/-- The `taskMap` of save-multiple-task-subtasks.js line 294: a JS `Map`
from stringified task id to array index, so for a duplicated id the last
index wins.  (The stored object reference always equals the array
element at that index, so re-reading the array at the index is the same
as reading the stored reference.) -/
def taskIndexOf (tasks : List Task) (tid : Int) : Option Nat :=
  ((tasks.enum).filter (fun p => p.2.id == tid)).getLast? |>.map (·.1)

/-- One iteration of the `for (const update of subtaskUpdates)` loop
(lines 296-324): missing parent or an existing non-empty subtask list
without `force` skips; otherwise the parent's subtasks are wholesale
replaced by the renumbered new ones. -/
def applySubtaskUpdate (force : Bool) (tasks : List Task) (u : SubtaskUpdate) :
    List Task :=
  match taskIndexOf tasks u.taskId with
  | none => tasks
  | some i =>
    match tasks[i]? with
    | none => tasks
    | some parent =>
      if parent.subtasks.length > 0 && !force then tasks
      else tasks.set i { parent with subtasks := renumberFrom 1 u.subtasks }

/-- The whole update loop of `saveMultipleTaskSubtasksDirect`. -/
def saveMultipleCore (force : Bool) (tasks : List Task)
    (updates : List SubtaskUpdate) : List Task :=
  updates.foldl (applySubtaskUpdate force) tasks

/-- The `subtaskUpdates` argument: `notArray` models a non-array value. -/
inductive SubtaskUpdatesArg where
  | notArray
  | arr (updates : List SubtaskUpdate)

/-- Embedding of `saveMultipleTaskSubtasksDirect`
(save-multiple-task-subtasks.js lines 272-357), same conventions as
`saveUpdatedTasksDirect`. -/
def saveMultipleTaskSubtasksDirect (pathOk rootOk : Bool)
    (arg : SubtaskUpdatesArg) (force : Bool) (stored : Option Doc) : SaveOutcome :=
  match arg with
  | .notArray => ⟨false, some "MISSING_ARGS", stored⟩
  | .arr ups =>
    if ¬pathOk ∨ ¬rootOk then ⟨false, some "MISSING_ARGS", stored⟩
    else
      match stored with
      | none => ⟨false, some "SAVE_MULTI_SUBTASK_ERROR", none⟩
      | some doc => ⟨true, none, some ⟨saveMultipleCore force doc.tasks ups⟩⟩

/-! ## Single-task expansion
Embedding of `expandTaskDirect`
(mcp-server/src/core/direct-functions/expand-task.js). -/

/-- A generated subtask as produced by `parseSubtasksFromText`:
`{title, description, details}`, with `status` possibly absent
(`undefined` modelled as `none`). -/
structure GenSubtask where
  title : String
  description : String
  details : String
  status : Option String
deriving Repr, DecidableEq

/-- expand-task.js line 196: `subtask.status = subtask.status || 'pending'`
(the only falsy string is the empty string). -/
def defaultStatus : Option String → String
  | none => "pending"
  | some s => if s == "" then "pending" else s

/-- expand-task.js lines 193-197: assign sequential ids starting at
`nextSubtaskId` and default the status, converting generated subtasks
into subtask records. -/
def assignIds (k : Int) : List GenSubtask → List Subtask
  | [] => []
  | g :: rest =>
    { id := k, title := g.title, description := g.description,
      details := g.details, status := defaultStatus g.status } :: assignIds (k + 1) rest

/-- Outcome of processing the found task in `expandTaskDirect`. -/
inductive ExpandOutcome where
  | notFound
  | taskCompleted
  | skipped (task : Task)
  | samplingFailed
  | expanded (task : Task) (added : Nat)
deriving Repr, DecidableEq

/-- expand-task.js lines 111-200 applied to the found task: the
completed-status guard, the skip-without-force guard, the force-clear,
and the generate/parse/renumber/replace pipeline.  `sample = none`
models a sampling failure, an empty completion or an unparseable
completion (all of which throw before any write). -/
def expandTaskAt (force : Bool) (sample : Option (List GenSubtask)) (task : Task) :
    ExpandOutcome × Task :=
  if task.status == "done" || task.status == "completed" then (.taskCompleted, task)
  else if task.subtasks.length > 0 && !force then (.skipped task, task)
  else
    let task1 := if task.subtasks.length > 0 && force
      then { task with subtasks := [] } else task
    match sample with
    | none => (.samplingFailed, task)
    | some gens =>
      let nextSubtaskId : Int := (task1.subtasks.length : Int) + 1
      let newSubtasks := assignIds nextSubtaskId gens
      let task2 := { task1 with subtasks := newSubtasks }
      (.expanded task2 newSubtasks.length, task2)

/-- expand-task.js lines 100 and 204: `findIndex` for the first task with
the requested id, then write back at that index.  Returns the outcome
together with the updated task list (only used when a write happens). -/
def expandWalk (tid : Int) (force : Bool) (sample : Option (List GenSubtask)) :
    List Task → ExpandOutcome × List Task
  | [] => (.notFound, [])
  | t :: ts =>
    if t.id == tid then
      let r := expandTaskAt force sample t
      (r.1, r.2 :: ts)
    else
      let r := expandWalk tid force sample ts
      (r.1, t :: r.2)

/-- Result envelope of `expandTaskDirect` together with the document on
disk after the call (`writeJSON` happens only on the expanded path). -/
structure ExpandResult where
  success : Bool
  errorCode : Option String
  subtasksAdded : Option Nat
  stored : Option Doc
deriving Repr, DecidableEq

/-- Embedding of `expandTaskDirect` (expand-task.js lines 43-251).
`argId` models `id ? parseInt(id, 10) : null` (`none` = missing id or
`NaN`; the value `0` is falsy and also rejected), `sessionOk` the
availability of `session.requestSampling`, `stored` the document on disk
(`none` = invalid tasks file). -/
def expandTaskDirect (pathOk : Bool) (argId : Option Int) (sessionOk : Bool)
    (force : Bool) (stored : Option Doc) (sample : Option (List GenSubtask)) :
    ExpandResult :=
  if ¬pathOk then ⟨false, some "MISSING_ARGUMENT", none, stored⟩
  else
    match argId with
    | none => ⟨false, some "INPUT_VALIDATION_ERROR", none, stored⟩
    | some tid =>
      if tid == 0 then ⟨false, some "INPUT_VALIDATION_ERROR", none, stored⟩
      else if ¬sessionOk then ⟨false, some "SAMPLING_UNAVAILABLE", none, stored⟩
      else
        match stored with
        | none => ⟨false, some "INVALID_TASKS_FILE", none, none⟩
        | some doc =>
          match expandWalk tid force sample doc.tasks with
          | (.notFound, _) => ⟨false, some "TASK_NOT_FOUND", none, stored⟩
          | (.taskCompleted, _) => ⟨false, some "TASK_COMPLETED", none, stored⟩
          | (.skipped _, _) => ⟨true, none, some 0, stored⟩
          | (.samplingFailed, _) => ⟨false, some "EXPAND_TASK_SAMPLING_ERROR", none, stored⟩
          | (.expanded _ n, ts) => ⟨true, none, some n, some ⟨ts⟩⟩

/-! ## Expansion-planner target count
Embedding of the target-count resolution at the top of
`generateSubtaskPrompt` (mcp-server/src/core/utils/ai-client-utils.js
lines 521-533).  JSON numbers are modelled as rationals. -/

/-- One entry of `complexityReport.complexityAnalysis`. -/
structure ComplexityEntry where
  id : Int
  complexityScore : ℚ
deriving Repr, DecidableEq

/-- A complexity report; the `complexityAnalysis` field may be absent
(`undefined`), which is falsy in the guard of line 524.  A present but
empty array is truthy. -/
structure ComplexityReport where
  complexityAnalysis : Option (List ComplexityEntry)
deriving Repr, DecidableEq

/-- ai-client-utils.js lines 522-533: resolve the target subtask count.
`Math.ceil(score / 1.5)` is modelled as the rational ceiling. -/
def targetNumSubtasks (numSubtasks : Option Int)
    (complexityReport : Option ComplexityReport) (taskId : Int) : Int :=
  match numSubtasks with
  | some n => n
  | none =>
    match complexityReport with
    | none => 5
    | some rpt =>
      match rpt.complexityAnalysis with
      | none => 5
      | some analysis =>
        match analysis.find? (fun a => a.id == taskId) with
        | some ta =>
          if ta.complexityScore ≥ 8 then
            max 3 (min 10 ⌈ta.complexityScore / (3 / 2 : ℚ)⌉)
          else 3
        | none => 3

/-- The resolution order exactly as claim C6 words it: explicit count;
else, when a complexity report ENTRY for the task id exists, the
score-based rule; else the fallback 5.  (Differs from the source when a
report is present but carries no entry for the task.) -/
def targetNumSubtasksClaimed (numSubtasks : Option Int)
    (complexityReport : Option ComplexityReport) (taskId : Int) : Int :=
  match numSubtasks with
  | some n => n
  | none =>
    match (complexityReport.bind (·.complexityAnalysis)).bind
        (fun l => l.find? (fun a => a.id == taskId)) with
    | some ta =>
      if ta.complexityScore ≥ 8 then
        max 3 (min 10 ⌈ta.complexityScore / (3 / 2 : ℚ)⌉)
      else 3
    | none => 5

/-- The amended resolution order: explicit count; else, when a
complexity report with a `complexityAnalysis` list is present, the
score-based rule for a matching entry with score ≥ 8 and 3 otherwise
(also when no entry matches the task); else 5. -/
def targetNumSubtasksAmended (numSubtasks : Option Int)
    (complexityReport : Option ComplexityReport) (taskId : Int) : Int :=
  match numSubtasks with
  | some n => n
  | none =>
    match complexityReport.bind (·.complexityAnalysis) with
    | none => 5
    | some analysis =>
      match analysis.find? (fun a => a.id == taskId) with
      | some ta =>
        if ta.complexityScore ≥ 8 then
          max 3 (min 10 ⌈ta.complexityScore / (3 / 2 : ℚ)⌉)
        else 3
      | none => 3

/-! ## Range filter of the multi-task update tool
Embedding of the filter in the update tool (src/unnamed/part_003 lines
74-78). -/

/-- A task as seen by the range filter: only the numeric value of its id
and its status matter.  `idNum` models the JS value
`parseFloat(task.id)`: `some q` when the id parses as a number, `none`
when it yields NaN (non-numeric id). -/
structure FilterTask where
  idNum : Option ℚ
  status : String
deriving Repr, DecidableEq

/-- part_003 line 77:
`!isNaN(taskIdNum) && taskIdNum >= fromIdNum && task.status !== 'done'`. -/
def tasksToUpdateFilter (fromId : ℚ) (t : FilterTask) : Bool :=
  match t.idNum with
  | none => false
  | some q => decide (fromId ≤ q) && t.status != "done"

/-! ## Batch expansion coordinator
Embedding of the execute handler of tools/expand-all.js. -/

/-- A tool response: success envelope with a message, or an error
response. -/
inductive ToolResponse where
  | success (message : String)
  | error (message : String)
deriving Repr, DecidableEq

/-- Eligibility filter of expand-all.js lines 84-87:
`status === 'pending' && (!subtasks || subtasks.length === 0 || force)`. -/
def eligibleForExpansion (force : Bool) (t : Task) : Bool :=
  t.status == "pending" && (t.subtasks.isEmpty || force)

/-- Embedding of the execute handler of tools/expand-all.js (lines
57-181).  The per-task loop body (line 101) begins by evaluating the
identifier `complexityReport`, which is declared nowhere in that module;
in a JS module this throws a ReferenceError on the first iteration,
which the outer try/catch (lines 176-180) converts into an error
response.  Hence with at least one eligible task the handler always
returns an error envelope without processing any task. -/
def expandAllExecute (rootOk readOk : Bool) (doc : Doc) (force : Bool) : ToolResponse :=
  if ¬rootOk then .error "Could not determine project root."
  else if ¬readOk then .error "Failed to find or read tasks.json"
  else if (doc.tasks.filter (eligibleForExpansion force)).isEmpty then
    .success "No pending tasks eligible for expansion found."
  else
    .error "Internal server error during expand all tasks: complexityReport is not defined"

/-! ## Test fixtures for witnesses and counterexamples -/

/-- Fixture: a task with the given id, status and subtasks. -/
def mkTask (i : Int) (st : String) (subs : List Subtask) : Task :=
  { id := i, title := "", description := "", details := "", testStrategy := "",
    status := st, priority := "medium", dependencies := [], subtasks := subs }

/-- Fixture: a completed subtask. -/
def doneSubtask : Subtask :=
  { id := 1, title := "s1", description := "", details := "", status := "done" }

/-! ## Basic merge lemmas -/

/-- An empty update map passes every task through unchanged. -/
theorem mergePass_nil_map (ts : List Task) : mergePass [] ts = (ts, []) := by
  induction ts with
  | nil => rfl
  | cons t ts ih => simp [mergePass, mapGet, ih]

/-- Merging an empty batch returns the existing tasks unchanged. -/
theorem mergeTasks_nil_updates (ts : List Task) : mergeTasks ts [] = ts := by
  simp [mergeTasks, buildUpdateMap, mergePass_nil_map]

/-- C8: calling the reconciliation save (`saveUpdatedTasksDirect`) with a
non-array updates argument fails with the structured `MISSING_ARGS`
validation error and leaves the stored document unchanged; calling it
with an empty updates array succeeds as a no-op, returning a success
envelope with the stored tasks unchanged. -/
theorem c8_merge_error_behavior :
    (∀ (pathOk rootOk : Bool) (stored : Option Doc),
      saveUpdatedTasksDirect pathOk rootOk .notArray stored =
        ⟨false, some "MISSING_ARGS", stored⟩) ∧
    (∀ doc : Doc,
      saveUpdatedTasksDirect true true (.arr []) (some doc) =
        ⟨true, none, some doc⟩) := by
  refine ⟨fun _ _ _ => rfl, fun doc => ?_⟩
  simp [saveUpdatedTasksDirect, mergeTasks_nil_updates]

/-- C6 is false as stated: with no requested count and a complexity
report that is present but whose analysis list contains no entry for the
task, the code resolves the target to 3, while the claim's resolution
order requires the fallback default 5. -/
theorem c6_counterexample :
    targetNumSubtasks none (some ⟨some []⟩) 1 = 3 ∧
    targetNumSubtasksClaimed none (some ⟨some []⟩) 1 = 5 := ⟨rfl, rfl⟩

/-- C6 (amended): the planner resolves the target subtask count as: the
explicit requested count when provided; else, when a complexity report
with a `complexityAnalysis` list is present, clamp(ceil(score/1.5), 3, 10)
if an entry for the task's id exists with complexityScore ≥ 8, and 3
otherwise (also when no entry for the task exists); else the fallback
default 5. -/
theorem c6_target_count_resolution :
    ∀ (numSubtasks : Option Int) (rpt : Option ComplexityReport) (tid : Int),
      targetNumSubtasks numSubtasks rpt tid =
        targetNumSubtasksAmended numSubtasks rpt tid := by
  intro n rpt tid
  cases n with
  | some n => cases rpt <;> rfl
  | none =>
    cases rpt with
    | none => rfl
    | some r =>
      obtain ⟨ca⟩ := r
      cases ca <;> rfl

/-- C7 evidence: on a document with one eligible pending task, the
expand_all handler of tools/expand-all.js returns an error response —
the undeclared identifier `complexityReport` at line 101 raises a
ReferenceError on the first loop iteration, converted by the outer
handler into an error envelope — instead of processing the task and
returning a success envelope with per-task failures recorded. -/
theorem c7_expand_all_error_on_first_eligible_task :
    expandAllExecute true true ⟨[mkTask 1 "pending" []]⟩ false =
      .error "Internal server error during expand all tasks: complexityReport is not defined" := by
  decide

/-- The from-ID range filter exactly as claim C9 words it: numeric id at
least the bound and status not a terminal state (done or completed). -/
def tasksToUpdateFilterClaimed (fromId : ℚ) (t : FilterTask) : Bool :=
  match t.idNum with
  | none => false
  | some q => decide (fromId ≤ q) && t.status != "done" && t.status != "completed"

/-- C9 is false as stated: a task whose status is 'completed' and whose
numeric id is within range is selected by the code's filter, while the
claim requires both terminal states ('done' and 'completed') to be
excluded alike. -/
theorem c9_counterexample :
    tasksToUpdateFilter 1 ⟨some 5, "completed"⟩ = true ∧
    tasksToUpdateFilterClaimed 1 ⟨some 5, "completed"⟩ = false := by
  constructor <;> decide

/-- C9 (amended): the from-ID range filter selects exactly the tasks
whose id parses to a number q with q ≥ X and whose status is not exactly
'done' ('completed' tasks are still selected); tasks with non-numeric
ids are excluded from the filter rather than causing an error. -/
theorem c9_range_filter_characterization (x : ℚ) (t : FilterTask) :
    tasksToUpdateFilter x t = true ↔
      ∃ q, t.idNum = some q ∧ x ≤ q ∧ t.status ≠ "done" := by
  obtain ⟨idNum, status⟩ := t
  cases idNum <;> simp [tasksToUpdateFilter]

/-! ## Expansion lemmas -/

/-- The outcome of the expansion walk is determined by the first task
whose id matches (the task `findIndex` finds). -/
theorem expandWalk_fst_eq (tid : Int) (force : Bool)
    (sample : Option (List GenSubtask)) :
    ∀ {tasks : List Task} {t : Task},
      tasks.find? (fun x => x.id == tid) = some t →
      (expandWalk tid force sample tasks).1 = (expandTaskAt force sample t).1 := by
  intro tasks
  induction tasks with
  | nil => intro t h; simp at h
  | cons a ts ih =>
    intro t h
    rcases ha : (a.id == tid) with _ | _
    · rw [List.find?_cons_of_neg _ (by simp [ha])] at h
      simp [expandWalk, ha, ih h]
    · rw [List.find?_cons_of_pos _ (by simp [ha])] at h
      cases h
      simp [expandWalk, ha]

/-- C10: expanding a task whose status is 'done' or 'completed' returns
an error envelope with code TASK_COMPLETED and performs no write: the
stored document, including that task's subtasks, is unchanged. -/
theorem c10_expand_completed_task_rejected
    (tid : Int) (force : Bool) (sample : Option (List GenSubtask))
    (doc : Doc) (t : Task)
    (htid : tid ≠ 0)
    (hfind : doc.tasks.find? (fun x => x.id == tid) = some t)
    (hstatus : t.status = "done" ∨ t.status = "completed") :
    expandTaskDirect true (some tid) true force (some doc) sample =
      ⟨false, some "TASK_COMPLETED", none, some doc⟩ := by
  have hw := expandWalk_fst_eq tid force sample hfind
  have hat : (expandTaskAt force sample t).1 = .taskCompleted := by
    rcases hstatus with h | h <;> simp [expandTaskAt, h]
  rw [hat] at hw
  rcases hp : expandWalk tid force sample doc.tasks with ⟨o, l⟩
  rw [hp] at hw
  simp only at hw
  subst hw
  simp [expandTaskDirect, htid, hp]

/-- Witness for C10 at a concrete document. -/
theorem c10_witness :
    expandTaskDirect true (some 1) true false (some ⟨[mkTask 1 "done" []]⟩) none =
      ⟨false, some "TASK_COMPLETED", none, some ⟨[mkTask 1 "done" []]⟩⟩ :=
  c10_expand_completed_task_rejected 1 false none ⟨[mkTask 1 "done" []]⟩
    (mkTask 1 "done" []) (by decide) (by decide) (Or.inl rfl)

/-- C5 is false as stated: a task that already has a subtask but whose
status is 'done' is rejected with a TASK_COMPLETED error envelope, not
reported as a successful skip. -/
theorem c5_counterexample :
    expandTaskDirect true (some 1) true false
        (some ⟨[mkTask 1 "done" [doneSubtask]]⟩) (some []) =
      ⟨false, some "TASK_COMPLETED", none, some ⟨[mkTask 1 "done" [doneSubtask]]⟩⟩ := by
  decide

/-- C5 (amended): for every task that already has at least one subtask
and whose status is not 'done'/'completed', calling expandTaskDirect
with the force flag false is a no-op reported as success: the stored
document is unchanged and the envelope reports zero subtasks added. -/
theorem c5_expand_skip_by_default
    (tid : Int) (sample : Option (List GenSubtask)) (doc : Doc) (t : Task)
    (htid : tid ≠ 0)
    (hfind : doc.tasks.find? (fun x => x.id == tid) = some t)
    (hdone : t.status ≠ "done") (hcomp : t.status ≠ "completed")
    (hsubs : t.subtasks ≠ []) :
    expandTaskDirect true (some tid) true false (some doc) sample =
      ⟨true, none, some 0, some doc⟩ := by
  have hw := expandWalk_fst_eq tid false sample hfind
  have hat : (expandTaskAt false sample t).1 = .skipped t := by
    have hlen : 0 < t.subtasks.length := List.length_pos.mpr hsubs
    simp [expandTaskAt, hdone, hcomp, hlen]
  rw [hat] at hw
  rcases hp : expandWalk tid false sample doc.tasks with ⟨o, l⟩
  rw [hp] at hw
  simp only at hw
  subst hw
  simp [expandTaskDirect, htid, hp]

/-- Witness for C5 at a concrete document. -/
theorem c5_witness :
    expandTaskDirect true (some 1) true false
        (some ⟨[mkTask 1 "pending" [doneSubtask]]⟩) none =
      ⟨true, none, some 0, some ⟨[mkTask 1 "pending" [doneSubtask]]⟩⟩ :=
  c5_expand_skip_by_default 1 none ⟨[mkTask 1 "pending" [doneSubtask]]⟩
    (mkTask 1 "pending" [doneSubtask]) (by decide) (by decide)
    (by decide) (by decide) (by decide)

/-! ## Update-map lemmas -/

/-- Every entry of `mapSet m k v` is an old entry or the new pair. -/
theorem mem_mapSet {m : List (Int × Task)} {k : Int} {v : Task} {p : Int × Task}
    (h : p ∈ mapSet m k v) : p ∈ m ∨ p = (k, v) := by
  unfold mapSet at h
  split at h
  · obtain ⟨q, hq, hfq⟩ := List.mem_map.mp h
    by_cases hk : q.1 = k
    · right; rw [← hfq]; simp [hk]
    · left; rw [← hfq]; simpa [hk] using hq
  · rcases List.mem_append.mp h with h | h
    · exact Or.inl h
    · exact Or.inr (List.mem_singleton.mp h)

/-- Entries accumulated by the update-map fold come from the initial map
or from the update list. -/
theorem mem_foldl_mapSet :
    ∀ {l : List Task} {m : List (Int × Task)} {p : Int × Task},
      p ∈ l.foldl (fun m u => mapSet m u.id u) m →
      p ∈ m ∨ ∃ u ∈ l, p = (u.id, u) := by
  intro l
  induction l with
  | nil => intro m p h; exact Or.inl h
  | cons u l ih =>
    intro m p h
    rcases ih h with h' | ⟨w, hw, rfl⟩
    · rcases mem_mapSet h' with h'' | rfl
      · exact Or.inl h''
      · exact Or.inr ⟨u, List.mem_cons_self u l, rfl⟩
    · exact Or.inr ⟨w, List.mem_cons_of_mem u hw, rfl⟩

/-- Every entry of the update map is keyed by the id of its value, and
that id comes from the update batch. -/
theorem mem_buildUpdateMap {updates : List Task} {p : Int × Task}
    (h : p ∈ buildUpdateMap updates) :
    p.2.id = p.1 ∧ p.1 ∈ updates.map (·.id) := by
  rcases mem_foldl_mapSet h with h' | ⟨u, hu, rfl⟩
  · simp at h'
  · exact ⟨rfl, List.mem_map.mpr ⟨u, hu, rfl⟩⟩

/-- A map lookup misses exactly when no entry carries the key. -/
theorem mapGet_eq_none_iff {m : List (Int × Task)} {x : Int} :
    mapGet m x = none ↔ ∀ p ∈ m, p.1 ≠ x := by
  simp [mapGet, List.find?_eq_none]

/-- A successful map lookup comes from an entry with that key. -/
theorem mapGet_eq_some {m : List (Int × Task)} {x : Int} {u : Task}
    (h : mapGet m x = some u) : ∃ p ∈ m, p.1 = x ∧ p.2 = u := by
  unfold mapGet at h
  rcases hq : m.find? (fun p => p.1 == x) with _ | q
  · simp [hq] at h
  · have hmem := List.mem_of_find?_eq_some hq
    have hkey : q.1 = x := by simpa using List.find?_some hq
    refine ⟨q, hmem, hkey, ?_⟩
    simp [hq] at h
    exact h

/-- Deletion only removes entries. -/
theorem mem_of_mapDelete {m : List (Int × Task)} {k : Int} {p : Int × Task}
    (h : p ∈ mapDelete m k) : p ∈ m :=
  List.mem_of_mem_filter h

/-- Deleting one key does not change lookups of a missing key. -/
theorem mapGet_mapDelete_none {m : List (Int × Task)} {k x : Int}
    (h : mapGet m x = none) : mapGet (mapDelete m k) x = none := by
  rw [mapGet_eq_none_iff] at h ⊢
  intro p hp
  exact h p (List.mem_of_mem_filter hp)

/-! ## Stable-sort lemmas -/

/-- Stable insertion only repositions the inserted element. -/
theorem insertByIdStable_perm (t : Task) (l : List Task) :
    List.Perm (insertByIdStable t l) (t :: l) := by
  induction l with
  | nil => exact List.Perm.refl _
  | cons u us ih =>
    by_cases h : u.id ≤ t.id
    · have h1 := ih.cons u
      have h2 := List.Perm.swap t u us
      simpa [insertByIdStable, h] using h1.trans h2
    · simp only [insertByIdStable, if_neg h]
      exact List.Perm.refl _

/-- The stable sort is a permutation. -/
theorem sortByNumericId_perm (l : List Task) : List.Perm (sortByNumericId l) l := by
  have main : ∀ (l acc : List Task),
      List.Perm (l.foldl (fun acc t => insertByIdStable t acc) acc) (acc ++ l) := by
    intro l
    induction l with
    | nil => intro acc; simp
    | cons t ts ih =>
      intro acc
      have h1 := ih (insertByIdStable t acc)
      have h2 : List.Perm (insertByIdStable t acc ++ ts) ((t :: acc) ++ ts) :=
        (insertByIdStable_perm t acc).append_right ts
      exact (h1.trans h2).trans List.perm_middle.symm
  simpa using main l []

/-! ## Merge-pass lemmas -/

/-- The merged list is a permutation of the pass output followed by the
leftover (appended) updates. -/
theorem mergeTasks_perm_parts (existing updates : List Task) :
    List.Perm (mergeTasks existing updates)
      ((mergePass (buildUpdateMap updates) existing).1 ++
       (mergePass (buildUpdateMap updates) existing).2.map (·.2)) := by
  rcases hp : mergePass (buildUpdateMap updates) existing with ⟨merged, leftover⟩
  simp only [mergeTasks, hp]
  cases leftover with
  | nil => simp
  | cons q qs =>
    simp only [List.isEmpty_cons, if_false, Bool.false_eq_true]
    exact sortByNumericId_perm _

/-- A task whose id misses the update map survives the merge pass. -/
theorem mem_mergePass_fst_of_none {t : Task} :
    ∀ {m : List (Int × Task)} {ts : List Task},
      t ∈ ts → mapGet m t.id = none → t ∈ (mergePass m ts).1 := by
  intro m ts
  induction ts generalizing m with
  | nil => intro h _; simp at h
  | cons a ts ih =>
    intro hmem hnone
    rcases hmg : mapGet m a.id with _ | u
    · rcases List.mem_cons.mp hmem with rfl | hmem'
      · simp [mergePass, hmg]
      · simp [mergePass, hmg, ih hmem' hnone]
    · rcases List.mem_cons.mp hmem with rfl | hmem'
      · rw [hnone] at hmg; cases hmg
      · simp [mergePass, hmg, ih hmem' (mapGet_mapDelete_none hnone)]

/-- A task of the original document whose id is absent from the update
batch is an element of the merged result. -/
theorem mem_mergeTasks_of_id_not_mem {existing updates : List Task} {t : Task}
    (ht : t ∈ existing) (hid : t.id ∉ updates.map (·.id)) :
    t ∈ mergeTasks existing updates := by
  have hnone : mapGet (buildUpdateMap updates) t.id = none := by
    rcases hmg : mapGet (buildUpdateMap updates) t.id with _ | u
    · rfl
    · obtain ⟨p, hp, hpk, _⟩ := mapGet_eq_some hmg
      exact absurd (hpk ▸ (mem_buildUpdateMap hp).2) hid
  exact (mergeTasks_perm_parts existing updates).mem_iff.mpr
    (List.mem_append_left _ (mem_mergePass_fst_of_none ht hnone))

/-- C1 is false as stated: when the parent task's id appears in the
update batch, the task is replaced wholesale, so a completed subtask of
the original is dropped if the replacement omits it (spec §8's
documented-gap scenario with task 7). -/
theorem c1_counterexample :
    (saveUpdatedTasksDirect true true (.arr [mkTask 7 "pending" []])
        (some ⟨[mkTask 7 "pending" [doneSubtask]]⟩)).stored =
      some ⟨[mkTask 7 "pending" []]⟩ ∧
    doneSubtask ∉ (mkTask 7 "pending" []).subtasks := by
  decide

/-- C1 (amended): a subtask with status 'done'/'completed' belonging to
a task whose id does NOT appear in the update batch is still present,
unmodified, in a task with the same id after the reconciliation merge;
when the parent's id appears in the batch the task is replaced wholesale
and preservation is delegated to the generator. -/
theorem c1_protected_subtasks_preserved
    (existing updates : List Task) (t : Task) (s : Subtask)
    (ht : t ∈ existing) (hid : t.id ∉ updates.map (·.id))
    (hs : s ∈ t.subtasks) (_hdone : s.status = "done" ∨ s.status = "completed") :
    ∃ t', t' ∈ mergeTasks existing updates ∧ t'.id = t.id ∧ s ∈ t'.subtasks :=
  ⟨t, mem_mergeTasks_of_id_not_mem ht hid, rfl, hs⟩

/-- Witness for C1 at a concrete document and batch. -/
theorem c1_witness :
    ∃ t', t' ∈ mergeTasks [mkTask 1 "pending" [doneSubtask]] [mkTask 2 "pending" []] ∧
      t'.id = 1 ∧ doneSubtask ∈ t'.subtasks :=
  c1_protected_subtasks_preserved [mkTask 1 "pending" [doneSubtask]]
    [mkTask 2 "pending" []] (mkTask 1 "pending" [doneSubtask]) doneSubtask
    (by decide) (by decide) (by decide) (Or.inl rfl)

/-- The leftover map after the pass consists exactly of the entries
whose key does not occur among the walked tasks' ids. -/
theorem mergePass_snd_eq :
    ∀ {ts : List Task} {m : List (Int × Task)},
      (mergePass m ts).2 = m.filter (fun p => !((ts.map (·.id)).contains p.1)) := by
  intro ts
  induction ts with
  | nil => intro m; simp [mergePass]
  | cons t ts ih =>
    intro m
    rcases hmg : mapGet m t.id with _ | u
    · have hne : ∀ p ∈ m, p.1 ≠ t.id := mapGet_eq_none_iff.mp hmg
      simp only [mergePass, hmg]
      rw [ih]
      apply List.filter_congr
      intro p hp
      simp [List.contains_cons, hne p hp]
    · simp only [mergePass, hmg]
      rw [ih]
      unfold mapDelete
      rw [List.filter_filter]
      apply List.filter_congr
      intro p hp
      by_cases hpe : p.1 = t.id <;>
        simp [List.contains_cons, Bool.not_or, Bool.and_comm, hpe]

/-- Tasks whose id is outside the update batch occupy the same positions
before and after the merge pass: filtering both lists down to them
yields the same list. -/
theorem mergePass_fst_filter_eq {updIds : List Int} :
    ∀ {ts : List Task} {m : List (Int × Task)},
      (∀ p ∈ m, p.2.id = p.1 ∧ p.1 ∈ updIds) →
      (mergePass m ts).1.filter (fun x => !(updIds.contains x.id)) =
        ts.filter (fun x => !(updIds.contains x.id)) := by
  intro ts
  induction ts with
  | nil => intro m _; simp [mergePass]
  | cons t ts ih =>
    intro m hm
    rcases hmg : mapGet m t.id with _ | u
    · have htail := ih hm
      simp only [mergePass, hmg]
      rw [List.filter_cons, List.filter_cons, htail]
    · obtain ⟨p₀, hp₀, hk, hv⟩ := mapGet_eq_some hmg
      have huid : u.id = t.id := by rw [← hv, (hm p₀ hp₀).1, hk]
      have htid : t.id ∈ updIds := hk ▸ (hm p₀ hp₀).2
      have hcon : updIds.contains t.id = true := by
        simpa using htid
      have hbu : ¬ ((!(updIds.contains u.id)) = true) := by
        simp only [huid]
        simp
        exact htid
      have hbt : ¬ ((!(updIds.contains t.id)) = true) := by
        simp
        exact htid
      have htail := @ih (mapDelete m t.id) (fun p hp => hm p (mem_of_mapDelete hp))
      simp only [mergePass, hmg]
      rw [@List.filter_cons_of_neg _ (fun x => !(updIds.contains x.id)) u
            ((mergePass (mapDelete m t.id) ts).1) hbu,
          @List.filter_cons_of_neg _ (fun x => !(updIds.contains x.id)) t ts hbt]
      exact htail

/-- C3 is false as stated: when the update batch contains an id absent
from the document, the whole list is re-sorted by numeric id, which can
change the relative position of untouched tasks (here the untouched
tasks 2 and 1 swap their order). -/
theorem c3_counterexample :
    ((mergeTasks [mkTask 2 "pending" [], mkTask 1 "pending" []]
        [mkTask 3 "pending" []]).filter
          (fun x => !(([mkTask 3 "pending" []].map (·.id)).contains x.id))).map (·.id) =
      [1, 2] ∧
    (([mkTask 2 "pending" [], mkTask 1 "pending" []].filter
          (fun x => !(([mkTask 3 "pending" []].map (·.id)).contains x.id))).map (·.id)) =
      [2, 1] := by
  decide

/-- C3 (amended): every task whose id does not appear in the update
batch is still an element of the merged result, unchanged; and whenever
the batch contains no ids absent from the document (so no re-sort
happens), the untouched tasks additionally keep their relative positions:
the merged list filtered to untouched tasks equals the original list
filtered to untouched tasks. -/
theorem c3_untouched_tasks_unchanged (existing updates : List Task) :
    (∀ t ∈ existing, t.id ∉ updates.map (·.id) → t ∈ mergeTasks existing updates) ∧
    ((∀ u ∈ updates, u.id ∈ existing.map (·.id)) →
      (mergeTasks existing updates).filter
          (fun x => !((updates.map (·.id)).contains x.id)) =
        existing.filter (fun x => !((updates.map (·.id)).contains x.id))) := by
  constructor
  · intro t ht hid
    exact mem_mergeTasks_of_id_not_mem ht hid
  · intro hcov
    have hkeys : ∀ p ∈ buildUpdateMap updates, p.2.id = p.1 ∧ p.1 ∈ updates.map (·.id) :=
      fun p hp => mem_buildUpdateMap hp
    have hleft : (mergePass (buildUpdateMap updates) existing).2 = [] := by
      rw [mergePass_snd_eq]
      rw [List.filter_eq_nil_iff]
      intro p hp
      obtain ⟨u, hu, huid⟩ := List.mem_map.mp (hkeys p hp).2
      have : p.1 ∈ existing.map (·.id) := huid ▸ hcov u hu
      simpa using this
    have hmt : mergeTasks existing updates =
        (mergePass (buildUpdateMap updates) existing).1 := by
      simp [mergeTasks, hleft]
    rw [hmt]
    exact mergePass_fst_filter_eq hkeys

/-- Witness for C3 at a concrete document and batch. -/
theorem c3_witness :
    (mkTask 1 "pending" [] ∈
      mergeTasks [mkTask 1 "pending" [], mkTask 2 "pending" []] [mkTask 2 "new" []]) ∧
    (mergeTasks [mkTask 1 "pending" [], mkTask 2 "pending" []]
        [mkTask 2 "new" []]).filter
        (fun x => !(([mkTask 2 "new" []].map (·.id)).contains x.id)) =
      [mkTask 1 "pending" [], mkTask 2 "pending" []].filter
        (fun x => !(([mkTask 2 "new" []].map (·.id)).contains x.id)) :=
  ⟨(c3_untouched_tasks_unchanged [mkTask 1 "pending" [], mkTask 2 "pending" []]
      [mkTask 2 "new" []]).1 (mkTask 1 "pending" []) (by decide) (by decide),
   (c3_untouched_tasks_unchanged [mkTask 1 "pending" [], mkTask 2 "pending" []]
      [mkTask 2 "new" []]).2 (by decide)⟩

/-! ## Contiguity lemmas -/

/-- The renumbered subtasks carry exactly the ids k, k+1, .... -/
theorem renumberFrom_map_id (k : Int) (l : List Subtask) :
    (renumberFrom k l).map (·.id) = rangeInts k l.length := by
  induction l generalizing k with
  | nil => rfl
  | cons s rest ih => simp [renumberFrom, rangeInts, ih]

/-- Renumbering preserves the number of subtasks. -/
theorem renumberFrom_length (k : Int) (l : List Subtask) :
    (renumberFrom k l).length = l.length := by
  induction l generalizing k with
  | nil => rfl
  | cons s rest ih => simp [renumberFrom, ih]

/-- A task whose subtasks were renumbered from 1 satisfies the
contiguity invariant. -/
theorem contiguousIds_renumbered (t : Task) (l : List Subtask) :
    contiguousIds { t with subtasks := renumberFrom 1 l } = true := by
  simp [contiguousIds, renumberFrom_map_id, renumberFrom_length]

/-- Expansion-assigned subtasks carry exactly the ids k, k+1, .... -/
theorem assignIds_map_id (k : Int) (l : List GenSubtask) :
    (assignIds k l).map (·.id) = rangeInts k l.length := by
  induction l generalizing k with
  | nil => rfl
  | cons g rest ih => simp [assignIds, rangeInts, ih]

/-- Id assignment preserves the number of subtasks. -/
theorem assignIds_length (k : Int) (l : List GenSubtask) :
    (assignIds k l).length = l.length := by
  induction l generalizing k with
  | nil => rfl
  | cons g rest ih => simp [assignIds, ih]

/-- A task whose subtasks were assigned ids from 1 satisfies the
contiguity invariant. -/
theorem contiguousIds_assignIds (t : Task) (gens : List GenSubtask) :
    contiguousIds { t with subtasks := assignIds 1 gens } = true := by
  simp [contiguousIds, assignIds_map_id, assignIds_length]

/-- One step of the multi-task subtask save keeps every task satisfying
the contiguity invariant. -/
theorem applySubtaskUpdate_preserves (force : Bool) (tasks : List Task)
    (u : SubtaskUpdate) (h : ∀ t ∈ tasks, contiguousIds t = true) :
    ∀ t ∈ applySubtaskUpdate force tasks u, contiguousIds t = true := by
  intro t ht
  unfold applySubtaskUpdate at ht
  rcases hidx : taskIndexOf tasks u.taskId with _ | i
  · simp only [hidx] at ht; exact h t ht
  · simp only [hidx] at ht
    rcases hg : tasks[i]? with _ | parent
    · simp only [hg] at ht; exact h t ht
    · simp only [hg] at ht
      split at ht
      · exact h t ht
      · rcases List.mem_or_eq_of_mem_set ht with h' | rfl
        · exact h t h'
        · exact contiguousIds_renumbered parent u.subtasks

/-- The whole multi-task subtask save keeps every task satisfying the
contiguity invariant. -/
theorem saveMultipleCore_preserves (force : Bool) :
    ∀ (updates : List SubtaskUpdate) (tasks : List Task),
      (∀ t ∈ tasks, contiguousIds t = true) →
      ∀ t ∈ saveMultipleCore force tasks updates, contiguousIds t = true := by
  intro updates
  induction updates with
  | nil => intro tasks h; exact h
  | cons u us ih =>
    intro tasks h
    exact ih _ (applySubtaskUpdate_preserves force tasks u h)

/-- Processing the found task during expansion returns it either
unchanged or with contiguously numbered subtasks. -/
theorem expandTaskAt_snd (force : Bool) (sample : Option (List GenSubtask)) (t : Task) :
    (expandTaskAt force sample t).2 = t ∨
      contiguousIds (expandTaskAt force sample t).2 = true := by
  by_cases h1 : (t.status == "done" || t.status == "completed") = true
  · left; simp [expandTaskAt, h1]
  · by_cases h2 : (t.subtasks.length > 0 && !force) = true
    · left; simp [expandTaskAt, h1, h2]
    · rcases sample with _ | gens
      · left; simp [expandTaskAt, h1, h2]
      · right
        by_cases h3 : (t.subtasks.length > 0 && force) = true
        · simp only [expandTaskAt, h1, h2, h3]
          simp [contiguousIds, assignIds_map_id, assignIds_length]
        · have h0 : t.subtasks.length = 0 := by
            by_contra hne
            have hpos : (0 : Nat) < t.subtasks.length := Nat.pos_of_ne_zero hne
            cases hf : force
            · exact h2 (by simp [hpos, hf])
            · exact h3 (by simp [hpos, hf])
          simp only [expandTaskAt, h1, h2, h3]
          simp [contiguousIds, assignIds_map_id, assignIds_length, h0]

/-- Every task in the list written by the expansion walk is either an
original task or the processed found task. -/
theorem expandWalk_snd_mem {tid : Int} {force : Bool}
    {sample : Option (List GenSubtask)} :
    ∀ {ts : List Task} {t' : Task}, t' ∈ (expandWalk tid force sample ts).2 →
      t' ∈ ts ∨ ∃ t ∈ ts, t' = (expandTaskAt force sample t).2 := by
  intro ts
  induction ts with
  | nil => intro t' h; simp [expandWalk] at h
  | cons a ts ih =>
    intro t' h
    by_cases ha : (a.id == tid) = true
    · simp only [expandWalk, ha, if_true] at h
      rcases List.mem_cons.mp h with rfl | h'
      · exact Or.inr ⟨a, List.mem_cons_self a ts, rfl⟩
      · exact Or.inl (List.mem_cons_of_mem a h')
    · simp only [expandWalk, if_neg ha] at h
      rcases List.mem_cons.mp h with rfl | h'
      · exact Or.inl (List.mem_cons_self _ _)
      · rcases ih h' with h'' | ⟨t, ht, rfl⟩
        · exact Or.inl (List.mem_cons_of_mem a h'')
        · exact Or.inr ⟨t, List.mem_cons_of_mem a ht, rfl⟩

/-- C2 is false as stated: the reconciliation merge performs no
renumbering, so a replacement task carrying subtask id 5 keeps it, and
the resulting task violates the 1..N contiguity invariant. -/
theorem c2_counterexample :
    (saveUpdatedTasksDirect true true
        (.arr [mkTask 1 "pending" [{ doneSubtask with id := 5 }]])
        (some ⟨[mkTask 1 "pending" []]⟩)).stored =
      some ⟨[mkTask 1 "pending" [{ doneSubtask with id := 5 }]]⟩ ∧
    contiguousIds (mkTask 1 "pending" [{ doneSubtask with id := 5 }]) = false := by
  decide

/-- C2 (amended): the two subtask-writing operations that renumber —
the multi-task subtask save and single-task expansion — preserve the
contiguity invariant: whenever every task of the stored document has
subtask ids exactly 1..N, every task of the document they store also
does.  (The reconciliation merge of saveUpdatedTasksDirect performs no
renumbering, so it keeps whatever subtask ids the batch supplied.) -/
theorem c2_renumbering_preserves_contiguity :
    (∀ (force : Bool) (doc : Doc) (ups : List SubtaskUpdate) (d' : Doc),
      (∀ t ∈ doc.tasks, contiguousIds t = true) →
      (saveMultipleTaskSubtasksDirect true true (.arr ups) force
          (some doc)).stored = some d' →
      ∀ t ∈ d'.tasks, contiguousIds t = true) ∧
    (∀ (pathOk : Bool) (argId : Option Int) (sessionOk force : Bool) (doc : Doc)
        (sample : Option (List GenSubtask)) (d' : Doc),
      (∀ t ∈ doc.tasks, contiguousIds t = true) →
      (expandTaskDirect pathOk argId sessionOk force (some doc) sample).stored =
        some d' →
      ∀ t ∈ d'.tasks, contiguousIds t = true) := by
  constructor
  · intro force doc ups d' hc hst
    have hd : (⟨saveMultipleCore force doc.tasks ups⟩ : Doc) = d' := by
      simpa [saveMultipleTaskSubtasksDirect] using hst
    subst hd
    exact saveMultipleCore_preserves force ups doc.tasks hc
  · intro pathOk argId sessionOk force doc sample d' hc hst
    by_cases hp : pathOk = true
    · rcases argId with _ | tid
      · simp [expandTaskDirect, hp] at hst; subst hst; exact hc
      · by_cases h0 : (tid == 0) = true
        · simp [expandTaskDirect, hp, h0] at hst; subst hst; exact hc
        · by_cases hs : sessionOk = true
          · rcases heq : expandWalk tid force sample doc.tasks with ⟨o, ts⟩
            cases o with
            | notFound =>
              simp [expandTaskDirect, hp, h0, hs, heq] at hst; subst hst; exact hc
            | taskCompleted =>
              simp [expandTaskDirect, hp, h0, hs, heq] at hst; subst hst; exact hc
            | skipped tk =>
              simp [expandTaskDirect, hp, h0, hs, heq] at hst; subst hst; exact hc
            | samplingFailed =>
              simp [expandTaskDirect, hp, h0, hs, heq] at hst; subst hst; exact hc
            | expanded tk n =>
              simp [expandTaskDirect, hp, h0, hs, heq] at hst
              subst hst
              intro t' ht'
              have hmem : t' ∈ (expandWalk tid force sample doc.tasks).2 := by
                rw [heq]; exact ht'
              rcases expandWalk_snd_mem hmem with hmem' | ⟨t0, ht0, rfl⟩
              · exact hc t' hmem'
              · rcases expandTaskAt_snd force sample t0 with he | he
                · rw [he]; exact hc t0 ht0
                · exact he
          · simp [expandTaskDirect, hp, h0, hs] at hst; subst hst; exact hc
    · simp [expandTaskDirect, hp] at hst; subst hst; exact hc

/-- Witness for C2 at concrete documents: one multi-task subtask save
(renumbering a supplied id 5 to 1) and one successful expansion. -/
theorem c2_witness :
    (∀ t ∈ (⟨[mkTask 1 "pending" [doneSubtask]]⟩ : Doc).tasks,
      contiguousIds t = true) ∧
    (∀ t ∈ (⟨[mkTask 1 "pending"
        [⟨1, "a", "b", "c", "pending"⟩]]⟩ : Doc).tasks, contiguousIds t = true) :=
  ⟨c2_renumbering_preserves_contiguity.1 false ⟨[mkTask 1 "pending" []]⟩
      [⟨1, [{ doneSubtask with id := 5 }]⟩] ⟨[mkTask 1 "pending" [doneSubtask]]⟩
      (by decide) (by decide),
   c2_renumbering_preserves_contiguity.2 true (some 1) true false
      ⟨[mkTask 1 "pending" []]⟩ (some [⟨"a", "b", "c", none⟩])
      ⟨[mkTask 1 "pending" [⟨1, "a", "b", "c", "pending"⟩]]⟩
      (by decide) (by decide)⟩

/-! ## Idempotence of the merge (C4) -/

/-- A map update keeps the keys free of duplicates. -/
theorem mapSet_keys_nodup {m : List (Int × Task)} {k : Int} {v : Task}
    (h : (m.map (·.1)).Nodup) : ((mapSet m k v).map (·.1)).Nodup := by
  unfold mapSet
  split
  · have heq : (m.map (fun p => if p.1 == k then (k, v) else p)).map (·.1) =
        m.map (·.1) := by
      rw [List.map_map]
      apply List.map_congr_left
      intro p hp
      by_cases hpk : p.1 = k <;> simp [hpk]
    rw [heq]
    exact h
  · rename_i hany
    rw [List.map_append]
    have hperm : List.Perm (m.map (·.1) ++ [(k, v)].map (·.1))
        (k :: m.map (·.1)) := List.perm_append_singleton _ _
    rw [hperm.nodup_iff]
    refine List.nodup_cons.mpr ⟨?_, h⟩
    intro hk
    obtain ⟨p, hp, hpk⟩ := List.mem_map.mp hk
    exact hany (List.any_eq_true.mpr ⟨p, hp, by simp [hpk]⟩)

/-- The update map never carries two entries with the same key. -/
theorem buildUpdateMap_keys_nodup (updates : List Task) :
    ((buildUpdateMap updates).map (·.1)).Nodup := by
  have main : ∀ (l : List Task) (m : List (Int × Task)), (m.map (·.1)).Nodup →
      ((l.foldl (fun m u => mapSet m u.id u) m).map (·.1)).Nodup := by
    intro l
    induction l with
    | nil => intro m h; exact h
    | cons u l ih => intro m h; exact ih _ (mapSet_keys_nodup h)
  exact main updates [] (by simp)

/-- In a map with duplicate-free keys, lookup of a present entry's key
returns exactly that entry's value. -/
theorem mapGet_of_mem_nodup : ∀ {m : List (Int × Task)} {k : Int} {v : Task},
    (m.map (·.1)).Nodup → (k, v) ∈ m → mapGet m k = some v := by
  intro m
  induction m with
  | nil => intro k v _ h; simp at h
  | cons q m ih =>
    intro k v hnd hmem
    simp only [List.map_cons] at hnd
    have hknotin := (List.nodup_cons.mp hnd).1
    have hnd' := (List.nodup_cons.mp hnd).2
    rcases List.mem_cons.mp hmem with rfl | hmem'
    · unfold mapGet
      rw [List.find?_cons_of_pos _ (by simp)]
      rfl
    · have hk : ¬ ((q.1 == k) = true) := by
        intro hb
        apply hknotin
        have hkin : k ∈ m.map (·.1) := List.mem_map.mpr ⟨(k, v), hmem', rfl⟩
        rw [beq_iff_eq] at hb
        exact hb ▸ hkin
      have htail := ih hnd' hmem'
      unfold mapGet at htail ⊢
      rw [@List.find?_cons_of_neg _ (fun p => p.1 == k) q m hk]
      exact htail

/-- Deleting one key leaves lookups of every other key unchanged. -/
theorem mapGet_mapDelete_ne {m : List (Int × Task)} {k x : Int} (h : k ≠ x) :
    mapGet (mapDelete m k) x = mapGet m x := by
  induction m with
  | nil => rfl
  | cons q m ih =>
    unfold mapGet mapDelete at ih ⊢
    by_cases hqk : (q.1 != k) = true
    · rw [@List.filter_cons_of_pos _ (fun p => p.1 != k) q m hqk]
      by_cases hqx : (q.1 == x) = true
      · rw [@List.find?_cons_of_pos _ (fun p => p.1 == x) q
              (List.filter (fun p => p.1 != k) m) hqx,
            @List.find?_cons_of_pos _ (fun p => p.1 == x) q m hqx]
      · rw [@List.find?_cons_of_neg _ (fun p => p.1 == x) q
              (List.filter (fun p => p.1 != k) m) hqx,
            @List.find?_cons_of_neg _ (fun p => p.1 == x) q m hqx]
        exact ih
    · have hq1 : q.1 = k := by simpa using hqk
      have hqx : ¬ ((q.1 == x) = true) := by
        rw [hq1]
        simpa using h
      rw [@List.filter_cons_of_neg _ (fun p => p.1 != k) q m hqk,
          @List.find?_cons_of_neg _ (fun p => p.1 == x) q m hqx]
      exact ih

/-- The merge pass preserves the sequence of task ids. -/
theorem mergePass_fst_map_id : ∀ {ts : List Task} {m : List (Int × Task)},
    (∀ p ∈ m, p.2.id = p.1) →
    (mergePass m ts).1.map (·.id) = ts.map (·.id) := by
  intro ts
  induction ts with
  | nil => intro m _; rfl
  | cons t ts ih =>
    intro m hm
    rcases hmg : mapGet m t.id with _ | u
    · simp only [mergePass, hmg, List.map_cons]
      rw [ih hm]
    · obtain ⟨p₀, hp₀, hk, hv⟩ := mapGet_eq_some hmg
      have huid : u.id = t.id := by rw [← hv, hm p₀ hp₀, hk]
      simp only [mergePass, hmg, List.map_cons, huid]
      rw [ih (fun p hp => hm p (mem_of_mapDelete hp))]

/-- Under duplicate-free task ids, the stateful merge pass is the
stateless pointwise substitution. -/
theorem mergePass_fst_eq_map : ∀ {ts : List Task} {m : List (Int × Task)},
    (ts.map (·.id)).Nodup →
    (mergePass m ts).1 = ts.map (fun t =>
      match mapGet m t.id with
      | some u => u
      | none => t) := by
  intro ts
  induction ts with
  | nil => intro m _; rfl
  | cons t ts ih =>
    intro m hnd
    simp only [List.map_cons] at hnd
    have hnotin := (List.nodup_cons.mp hnd).1
    have hnd' := (List.nodup_cons.mp hnd).2
    have htail : ∀ (m' : List (Int × Task)), (mergePass m' ts).1 =
        ts.map (fun t' => match mapGet m' t'.id with | some u => u | none => t') :=
      fun m' => ih hnd'
    rcases hmg : mapGet m t.id with _ | u
    · have hft : (fun t' => match mapGet m t'.id with
          | some u => u | none => t') t = t := by
        show (match mapGet m t.id with | some u => u | none => t) = t
        rw [hmg]
      simp only [mergePass, hmg, List.map_cons, hft]
      rw [htail m]
    · have hft : (fun t' => match mapGet m t'.id with
          | some u => u | none => t') t = u := by
        show (match mapGet m t.id with | some u => u | none => t) = u
        rw [hmg]
      simp only [mergePass, hmg, List.map_cons, hft]
      rw [htail (mapDelete m t.id)]
      refine congrArg₂ _ rfl ?_
      apply List.map_congr_left
      intro t' ht'
      have hne : t.id ≠ t'.id := by
        intro h'
        exact hnotin (h' ▸ List.mem_map.mpr ⟨t', ht', rfl⟩)
      show (match mapGet (mapDelete m t.id) t'.id with | some u => u | none => t') =
        (match mapGet m t'.id with | some u => u | none => t')
      rw [mapGet_mapDelete_ne hne]

/-- When every entry of the map has its key among the tasks' ids and its
value equal to every task carrying that id, the merge pass is the
identity and consumes the whole map. -/
theorem mergePass_id_of_covered : ∀ {ts : List Task} {m : List (Int × Task)},
    (∀ k v, (k, v) ∈ m → k ∈ ts.map (·.id) ∧ ∀ t ∈ ts, t.id = k → t = v) →
    mergePass m ts = (ts, []) := by
  intro ts
  induction ts with
  | nil =>
    intro m hm
    have hm0 : m = [] := by
      rcases m with _ | ⟨p, m⟩
      · rfl
      · have := (hm p.1 p.2 (by simp)).1
        simp at this
    subst hm0; rfl
  | cons t ts ih =>
    intro m hm
    rcases hmg : mapGet m t.id with _ | u
    · have hrec : mergePass m ts = (ts, []) := by
        apply ih
        intro k v hkv
        have hkt : k ≠ t.id := by
          intro h'
          exact (mapGet_eq_none_iff.mp hmg (k, v) hkv) h'
        rcases hm k v hkv with ⟨hmem, hval⟩
        refine ⟨?_, fun t' ht' h' => hval t' (List.mem_cons_of_mem _ ht') h'⟩
        simp only [List.map_cons] at hmem
        rcases List.mem_cons.mp hmem with h' | h'
        · exact absurd h' hkt
        · exact h'
      simp [mergePass, hmg, hrec]
    · obtain ⟨p₀, hp₀, hk, hv⟩ := mapGet_eq_some hmg
      have hut : u = t := by
        have hpair : (t.id, u) ∈ m := by
          have : p₀ = (t.id, u) := by
            rcases p₀ with ⟨a, b⟩
            simp only at hk hv
            rw [hk, hv]
          exact this ▸ hp₀
        exact ((hm t.id u hpair).2 t (List.mem_cons_self _ _) rfl).symm
      have hrec : mergePass (mapDelete m t.id) ts = (ts, []) := by
        apply ih
        intro k v hkv
        have hkv' : (k, v) ∈ m := mem_of_mapDelete hkv
        have hkne : k ≠ t.id := by
          have := List.of_mem_filter hkv
          simpa using this
        rcases hm k v hkv' with ⟨hmem, hval⟩
        refine ⟨?_, fun t' ht' h' => hval t' (List.mem_cons_of_mem _ ht') h'⟩
        simp only [List.map_cons] at hmem
        rcases List.mem_cons.mp hmem with h' | h'
        · exact absurd h' hkne
        · exact h'
      simp [mergePass, hmg, hrec, hut]

/-- C4: the reconciliation merge is idempotent.  For every document with
duplicate-free task ids (the data model requires ids unique within the
document) and every update batch — including batches containing ids
absent from the document, which are appended and sorted on the first
application — merging the same batch twice yields the same task list as
merging it once. -/
theorem c4_merge_idempotent (existing updates : List Task)
    (hnd : (existing.map (·.id)).Nodup) :
    mergeTasks (mergeTasks existing updates) updates = mergeTasks existing updates := by
  have hval : ∀ p ∈ buildUpdateMap updates, p.2.id = p.1 :=
    fun p hp => (mem_buildUpdateMap hp).1
  have hkeysnd := buildUpdateMap_keys_nodup updates
  have hperm := mergeTasks_perm_parts existing updates
  have hPids : (mergePass (buildUpdateMap updates) existing).1.map (·.id) =
      existing.map (·.id) := mergePass_fst_map_id hval
  have hPstateless := @mergePass_fst_eq_map existing (buildUpdateMap updates) hnd
  have hLfilter := @mergePass_snd_eq existing (buildUpdateMap updates)
  have hcover : ∀ k v, (k, v) ∈ buildUpdateMap updates →
      k ∈ (mergeTasks existing updates).map (·.id) ∧
      ∀ t ∈ mergeTasks existing updates, t.id = k → t = v := by
    intro k v hkv
    have hvid : v.id = k := hval (k, v) hkv
    constructor
    · have hin : k ∈ ((mergePass (buildUpdateMap updates) existing).1 ++
          (mergePass (buildUpdateMap updates) existing).2.map (·.2)).map (·.id) := by
        rw [List.map_append]
        by_cases hex : k ∈ existing.map (·.id)
        · exact List.mem_append_left _ (hPids ▸ hex)
        · have hkL : (k, v) ∈ (mergePass (buildUpdateMap updates) existing).2 := by
            rw [hLfilter]
            refine List.mem_filter.mpr ⟨hkv, ?_⟩
            simp only [Bool.not_eq_eq_eq_not, Bool.not_true]  -- normalize
            simpa using hex
          refine List.mem_append_right _ ?_
          have hvmem : v ∈ (mergePass (buildUpdateMap updates) existing).2.map (·.2) :=
            List.mem_map.mpr ⟨(k, v), hkL, rfl⟩
          exact List.mem_map.mpr ⟨v, hvmem, hvid⟩
      exact ((hperm.map (·.id)).mem_iff).mpr hin
    · intro t htR hid
      have htPL := hperm.mem_iff.mp htR
      rcases List.mem_append.mp htPL with htP | htL
      · rw [hPstateless] at htP
        obtain ⟨t₀, ht₀, heq⟩ := List.mem_map.mp htP
        rcases hmg : mapGet (buildUpdateMap updates) t₀.id with _ | u
        · have ht₀t : t₀ = t := by
            have : (match mapGet (buildUpdateMap updates) t₀.id with
                | some u => u | none => t₀) = t := heq
            rw [hmg] at this
            exact this
          have hself : mapGet (buildUpdateMap updates) k = some v :=
            mapGet_of_mem_nodup hkeysnd hkv
          rw [ht₀t, hid] at hmg
          rw [hmg] at hself
          cases hself
        · have hut : u = t := by
            have : (match mapGet (buildUpdateMap updates) t₀.id with
                | some u => u | none => t₀) = t := heq
            rw [hmg] at this
            exact this
          obtain ⟨p₀, hp₀, hk0, hv0⟩ := mapGet_eq_some hmg
          have hp1 : p₀.1 = k := by
            rw [hk0, ← hid, ← hut, ← hv0, hval p₀ hp₀, hk0]
          have hpair : (k, u) ∈ buildUpdateMap updates := by
            have : p₀ = (k, u) := by
              rcases p₀ with ⟨a, b⟩
              simp only at hp1 hv0
              rw [hp1, hv0]
            exact this ▸ hp₀
          have h1 : mapGet (buildUpdateMap updates) k = some v :=
            mapGet_of_mem_nodup hkeysnd hkv
          have h2 : mapGet (buildUpdateMap updates) k = some u :=
            mapGet_of_mem_nodup hkeysnd hpair
          rw [h1] at h2
          rw [← hut]
          exact (Option.some.inj h2).symm
      · obtain ⟨p', hp', hveq⟩ := List.mem_map.mp htL
        have hin : p' ∈ buildUpdateMap updates := by
          rw [hLfilter] at hp'
          exact List.mem_of_mem_filter hp'
        have hk'k : p'.1 = k := by
          rw [← hval p' hin, hveq, hid]
        have hpair : (k, p'.2) ∈ buildUpdateMap updates := by
          have : p' = (k, p'.2) := by
            rcases p' with ⟨a, b⟩
            simp only at hk'k
            rw [hk'k]
          exact this ▸ hin
        have h1 : mapGet (buildUpdateMap updates) k = some v :=
          mapGet_of_mem_nodup hkeysnd hkv
        have h2 : mapGet (buildUpdateMap updates) k = some p'.2 :=
          mapGet_of_mem_nodup hkeysnd hpair
        rw [h1] at h2
        rw [← hveq]
        exact (Option.some.inj h2).symm
  have hps : mergePass (buildUpdateMap updates) (mergeTasks existing updates) =
      (mergeTasks existing updates, []) :=
    mergePass_id_of_covered (fun k v hkv => hcover k v hkv)
  conv_lhs => rw [mergeTasks, hps]
  simp

/-- Witness for C4 at a concrete document and batch (the batch contains
the fresh id 3, exercising the append-and-sort path). -/
theorem c4_witness :
    mergeTasks (mergeTasks [mkTask 2 "pending" [], mkTask 1 "pending" []]
        [mkTask 3 "pending" [], mkTask 1 "done" []])
      [mkTask 3 "pending" [], mkTask 1 "done" []] =
    mergeTasks [mkTask 2 "pending" [], mkTask 1 "pending" []]
      [mkTask 3 "pending" [], mkTask 1 "done" []] :=
  c4_merge_idempotent [mkTask 2 "pending" [], mkTask 1 "pending" []]
    [mkTask 3 "pending" [], mkTask 1 "done" []] (by decide)

end TaskMaster
